import Mathlib

/-!
Shallow embedding of `.github/scripts/analyze_and_fix_errors.py` (class
`BuildErrorHandler`) and proofs about its classification and remediation
logic.  File contents are modelled as `List Char`; the script reads files in
text mode, so `'\n'` is the only line terminator seen by the code.
-/

namespace BuildErrorHandler

/-- ASCII whitespace as recognized by Python's `str.strip`/`str.rstrip` and
by `\s` in the `re` patterns used in the script. -/
def isPySpace (c : Char) : Bool :=
  c = ' ' || c = '\t' || c = '\n' || c = '\r' || c = '\x0b' || c = '\x0c'

/-- `content.replace('\t', '    ')` (line 239). -/
def expandTabs : List Char → List Char
  | [] => []
  | c :: cs => (if c = '\t' then [' ', ' ', ' ', ' '] else [c]) ++ expandTabs cs

/-- `content.splitlines()` for text whose only line terminator is `'\n'`
(line 240); a trailing terminator does not produce a final empty line. -/
def splitlines : List Char → List (List Char)
  | [] => []
  | c :: cs =>
    if c = '\n' then [] :: splitlines cs
    else
      match splitlines cs with
      | [] => [[c]]
      | l :: ls => (c :: l) :: ls

/-- `'\n'.join(lines)` (line 240). -/
def joinNl : List (List Char) → List Char
  | [] => []
  | [l] => l
  | l :: ls => l ++ '\n' :: joinNl ls

/-- `line.rstrip()` (line 240). -/
def rstrip (l : List Char) : List Char :=
  (l.reverse.dropWhile isPySpace).reverse

/-- `s.strip()` as used on regex captures (lines 99, 101). -/
def pyStrip (l : List Char) : List Char :=
  rstrip (l.dropWhile isPySpace)

/-- The pure content transformation performed by
`BuildErrorHandler._fix_whitespace` (lines 233-247): expand tabs, strip
trailing whitespace from every line, and append a newline when the result
does not already end with one. -/
def fix_whitespace (content : List Char) : List Char :=
  let c1 := expandTabs content
  let c2 := joinNl ((splitlines c1).map rstrip)
  if c2.getLast? = some '\n' then c2 else c2 ++ ['\n']

/-- `pat in s`: Python substring containment (line 71). -/
def containsSub (pat : List Char) : List Char → Bool
  | [] => pat.isEmpty
  | c :: cs => pat.isPrefixOf (c :: cs) || containsSub pat cs

/-- `s` ends with the two characters `"\n\n"`. -/
def endsWithTwoNl (s : List Char) : Bool :=
  ['\n', '\n'].isPrefixOf s.reverse

example : splitlines ("a\n\n\n".toList) = [['a'], [], []] := by decide
example : splitlines ("a\nb".toList) = [['a'], ['b']] := by decide
example : splitlines ("".toList) = [] := by decide
example : splitlines ("\n".toList) = [[]] := by decide
example : joinNl [['a'], [], []] = ('a' :: '\n' :: '\n' :: []) := by decide
example : fix_whitespace ("a\n\n\n".toList) = ("a\n\n".toList) := by decide
example : fix_whitespace ("a\n\n".toList) = ("a\n".toList) := by decide
example : fix_whitespace ("x\t.  \ny".toList) = ("x    .\ny\n".toList) := by decide
example : containsSub ("MINOR".toList) ("is MINOR.".toList) = true := by decide
example : containsSub ("MINOR".toList) ("is minor.".toList) = false := by decide

theorem splitlines_cons_nl (cs : List Char) :
    splitlines ('\n' :: cs) = [] :: splitlines cs := by
  simp [splitlines]

theorem splitlines_cons_ne (c : Char) (cs : List Char) (hc : ¬ c = '\n') :
    splitlines (c :: cs) =
      match splitlines cs with
      | [] => [[c]]
      | l :: ls => (c :: l) :: ls := by
  simp [splitlines, if_neg hc]

theorem splitlines_append_nl (p t : List Char) (hp : '\n' ∉ p) :
    splitlines (p ++ '\n' :: t) = p :: splitlines t := by
  induction p with
  | nil => simp [splitlines]
  | cons c p ih =>
    have hc : ¬ c = '\n' := fun h => hp (by simp [h])
    have hp' : '\n' ∉ p := fun h => hp (List.mem_cons_of_mem _ h)
    rw [List.cons_append, splitlines_cons_ne c _ hc, ih hp']

theorem nl_not_mem_splitlines :
    ∀ (s : List Char), ∀ l ∈ splitlines s, '\n' ∉ l := by
  intro s
  induction s with
  | nil => intro l hl; simp [splitlines] at hl
  | cons c cs ih =>
    intro l hl
    by_cases hc : c = '\n'
    · subst hc
      rw [splitlines_cons_nl] at hl
      rcases List.mem_cons.mp hl with rfl | hl
      · simp
      · exact ih l hl
    · rw [splitlines_cons_ne c cs hc] at hl
      cases hsp : splitlines cs with
      | nil =>
        rw [hsp] at hl
        simp only [List.mem_singleton] at hl
        subst hl
        intro hmem
        exact hc (List.mem_singleton.mp hmem).symm
      | cons a as =>
        rw [hsp] at hl
        rcases List.mem_cons.mp hl with rfl | hl2
        · intro hmem
          rcases List.mem_cons.mp hmem with h | h
          · exact hc h.symm
          · exact ih a (by rw [hsp]; exact List.mem_cons_self _ _) h
        · exact ih l (by rw [hsp]; exact List.mem_cons_of_mem _ hl2)

theorem mem_of_mem_splitlines :
    ∀ (s : List Char), ∀ l ∈ splitlines s, ∀ c ∈ l, c ∈ s := by
  intro s
  induction s with
  | nil => intro l hl; simp [splitlines] at hl
  | cons d cs ih =>
    intro l hl c hc
    by_cases hd : d = '\n'
    · subst hd
      rw [splitlines_cons_nl] at hl
      rcases List.mem_cons.mp hl with rfl | hl
      · simp at hc
      · exact List.mem_cons_of_mem _ (ih l hl c hc)
    · rw [splitlines_cons_ne d cs hd] at hl
      cases hsp : splitlines cs with
      | nil =>
        rw [hsp] at hl
        simp only [List.mem_singleton] at hl
        subst hl
        exact List.mem_cons.mpr (Or.inl (List.mem_singleton.mp hc))
      | cons a as =>
        rw [hsp] at hl
        rcases List.mem_cons.mp hl with rfl | hl2
        · rcases List.mem_cons.mp hc with rfl | hc2
          · exact List.mem_cons_self _ _
          · exact List.mem_cons_of_mem _
              (ih a (by rw [hsp]; exact List.mem_cons_self _ _) c hc2)
        · exact List.mem_cons_of_mem _
            (ih l (by rw [hsp]; exact List.mem_cons_of_mem _ hl2) c hc)

theorem joinNl_cons_cons (a b : List Char) (t : List (List Char)) :
    joinNl (a :: b :: t) = a ++ '\n' :: joinNl (b :: t) := rfl

theorem joinNl_concat (qs : List (List Char)) (a : List Char) (h : qs ≠ []) :
    joinNl (qs ++ [a]) = joinNl qs ++ '\n' :: a := by
  induction qs with
  | nil => exact absurd rfl h
  | cons q t ih =>
    cases t with
    | nil => rfl
    | cons b t2 =>
      have ih' : joinNl ((b :: t2) ++ [a]) = joinNl (b :: t2) ++ '\n' :: a :=
        ih (by simp)
      calc joinNl ((q :: b :: t2) ++ [a])
          = q ++ '\n' :: joinNl ((b :: t2) ++ [a]) := joinNl_cons_cons ..
        _ = q ++ '\n' :: (joinNl (b :: t2) ++ '\n' :: a) := by rw [ih']
        _ = (q ++ '\n' :: joinNl (b :: t2)) ++ '\n' :: a := by simp

theorem mem_joinNl (ps : List (List Char)) :
    ∀ c ∈ joinNl ps, c = '\n' ∨ ∃ p ∈ ps, c ∈ p := by
  induction ps with
  | nil => intro c hc; simp [joinNl] at hc
  | cons a t ih =>
    intro c hc
    cases t with
    | nil => exact Or.inr ⟨a, List.mem_singleton_self a, hc⟩
    | cons b t2 =>
      rw [joinNl_cons_cons] at hc
      rcases List.mem_append.mp hc with h | h
      · exact Or.inr ⟨a, List.mem_cons_self _ _, h⟩
      · rcases List.mem_cons.mp h with rfl | h
        · exact Or.inl rfl
        · rcases ih c h with h2 | ⟨p, hp, hcp⟩
          · exact Or.inl h2
          · exact Or.inr ⟨p, List.mem_cons_of_mem _ hp, hcp⟩

theorem splitlines_joinNl_nl (ps : List (List Char)) (hps : ps ≠ [])
    (hnl : ∀ p ∈ ps, '\n' ∉ p) :
    splitlines (joinNl ps ++ ['\n']) = ps := by
  induction ps with
  | nil => exact absurd rfl hps
  | cons a t ih =>
    cases t with
    | nil =>
      have := splitlines_append_nl a [] (hnl a (List.mem_singleton_self a))
      simpa [joinNl, splitlines] using this
    | cons b t2 =>
      rw [joinNl_cons_cons, List.append_assoc, List.cons_append,
        splitlines_append_nl a _ (hnl a (List.mem_cons_self _ _)),
        ih (by simp) (fun p hp => hnl p (List.mem_cons_of_mem _ hp))]

theorem joinNl_ends_nl (ps : List (List Char)) (hnl : ∀ p ∈ ps, '\n' ∉ p)
    (h : (joinNl ps).getLast? = some '\n') :
    ∃ qs, qs ≠ [] ∧ ps = qs ++ [[]] ∧ joinNl ps = joinNl qs ++ ['\n'] := by
  rcases List.eq_nil_or_concat ps with rfl | ⟨qs, a, rfl⟩
  · simp [joinNl] at h
  · rw [List.concat_eq_append] at *
    rcases eq_or_ne qs [] with rfl | hqs
    · exfalso
      simp only [List.nil_append, joinNl] at h
      have : '\n' ∈ a := by
        rcases List.getLast?_eq_some_iff.mp h with ⟨ys, rfl⟩
        simp
      exact hnl a (by simp) this
    · rw [joinNl_concat qs a hqs] at h
      rcases eq_or_ne a [] with rfl | ha
      · exact ⟨qs, hqs, rfl, by rw [joinNl_concat qs [] hqs]⟩
      · exfalso
        rw [List.getLast?_append_of_ne_nil _ (by simp)] at h
        rcases a with _ | ⟨x, a2⟩
        · exact ha rfl
        · rw [List.getLast?_cons_cons] at h
          have hna : '\n' ∈ x :: a2 := by
            rcases List.getLast?_eq_some_iff.mp h with ⟨ys, hys⟩
            rw [hys]; simp
          exact hnl (x :: a2) (by simp) hna

theorem dropWhile_idem (p : Char → Bool) (l : List Char) :
    (l.dropWhile p).dropWhile p = l.dropWhile p := by
  induction l with
  | nil => rfl
  | cons a t ih =>
    by_cases h : p a
    · simp [List.dropWhile_cons, h, ih]
    · simp [List.dropWhile_cons, h]

theorem rstrip_idem (l : List Char) : rstrip (rstrip l) = rstrip l := by
  unfold rstrip
  rw [List.reverse_reverse, dropWhile_idem]

theorem mem_of_mem_rstrip (l : List Char) (c : Char) (h : c ∈ rstrip l) :
    c ∈ l := by
  unfold rstrip at h
  rw [List.mem_reverse] at h
  exact List.mem_reverse.mp ((List.dropWhile_sublist isPySpace).mem h)

theorem not_tab_mem_expandTabs (s : List Char) : '\t' ∉ expandTabs s := by
  induction s with
  | nil => simp [expandTabs]
  | cons c cs ih =>
    intro h
    rcases List.mem_append.mp h with h1 | h1
    · by_cases hc : c = '\t'
      · rw [if_pos hc] at h1
        simp at h1
      · rw [if_neg hc] at h1
        exact hc (List.mem_singleton.mp h1).symm
    · exact ih h1

theorem expandTabs_of_not_mem (s : List Char) (h : '\t' ∉ s) :
    expandTabs s = s := by
  induction s with
  | nil => rfl
  | cons c cs ih =>
    have hc : ¬ c = '\t' := fun hh => h (by simp [hh])
    rw [expandTabs, if_neg hc, ih (fun hh => h (List.mem_cons_of_mem _ hh))]
    rfl

theorem fix_whitespace_master (content : List Char) :
    ∃ qs : List (List Char),
      (∀ p ∈ qs, '\n' ∉ p ∧ rstrip p = p ∧ '\t' ∉ p) ∧
      fix_whitespace content = joinNl qs ++ ['\n'] ∧
      splitlines (fix_whitespace content) = if qs = [] then [[]] else qs := by
  have hprops : ∀ p ∈ (splitlines (expandTabs content)).map rstrip,
      '\n' ∉ p ∧ rstrip p = p ∧ '\t' ∉ p := by
    intro p hp
    rcases List.mem_map.mp hp with ⟨q, hq, rfl⟩
    refine ⟨?_, rstrip_idem q, ?_⟩
    · intro hmem
      exact nl_not_mem_splitlines _ q hq (mem_of_mem_rstrip q _ hmem)
    · intro hmem
      exact not_tab_mem_expandTabs content
        (mem_of_mem_splitlines _ q hq _ (mem_of_mem_rstrip q _ hmem))
  have hfw : fix_whitespace content =
      if (joinNl ((splitlines (expandTabs content)).map rstrip)).getLast? = some '\n'
      then joinNl ((splitlines (expandTabs content)).map rstrip)
      else joinNl ((splitlines (expandTabs content)).map rstrip) ++ ['\n'] := rfl
  by_cases hend :
      (joinNl ((splitlines (expandTabs content)).map rstrip)).getLast? = some '\n'
  · rcases joinNl_ends_nl _ (fun p hp => (hprops p hp).1) hend with
      ⟨qs, hqs, hpsqs, hjoin⟩
    have hsub : ∀ p ∈ qs, '\n' ∉ p ∧ rstrip p = p ∧ '\t' ∉ p := by
      intro p hp
      exact hprops p (by rw [hpsqs]; exact List.mem_append_left _ hp)
    refine ⟨qs, hsub, ?_, ?_⟩
    · rw [hfw, if_pos hend, hjoin]
    · rw [hfw, if_pos hend, hjoin, if_neg hqs,
        splitlines_joinNl_nl qs hqs (fun p hp => (hsub p hp).1)]
  · refine ⟨(splitlines (expandTabs content)).map rstrip, hprops, ?_, ?_⟩
    · rw [hfw, if_neg hend]
    · rw [hfw, if_neg hend]
      rcases eq_or_ne ((splitlines (expandTabs content)).map rstrip) [] with hps0 | hps0
      · rw [hps0, if_pos rfl]
        simp [joinNl, splitlines]
      · rw [if_neg hps0, splitlines_joinNl_nl _ hps0 (fun p hp => (hprops p hp).1)]

theorem fix_whitespace_no_tab (content : List Char) :
    '\t' ∉ fix_whitespace content := by
  rcases fix_whitespace_master content with ⟨qs, hprops, heq, _⟩
  rw [heq]
  intro hmem
  rcases List.mem_append.mp hmem with h | h
  · rcases mem_joinNl qs _ h with h2 | ⟨p, hp, hcp⟩
    · exact absurd h2 (by decide)
    · exact (hprops p hp).2.2 hcp
  · exact absurd (List.mem_singleton.mp h) (by decide)

theorem fix_whitespace_ends_nl (content : List Char) :
    (fix_whitespace content).getLast? = some '\n' := by
  rcases fix_whitespace_master content with ⟨qs, _, heq, _⟩
  rw [heq]
  exact List.getLast?_concat _

theorem fix_whitespace_lines_rstripped (content : List Char) :
    ∀ l ∈ splitlines (fix_whitespace content), rstrip l = l := by
  rcases fix_whitespace_master content with ⟨qs, hprops, _, hsplit⟩
  intro l hl
  rw [hsplit] at hl
  by_cases h0 : qs = []
  · rw [if_pos h0] at hl
    rw [List.mem_singleton.mp hl]
    rfl
  · rw [if_neg h0] at hl
    exact (hprops l hl).2.1

/-- Claim C3 (amended): the generic whitespace normalization of
`BuildErrorHandler._fix_whitespace` is idempotent on every file content whose
normalized form does not end in two consecutive newline characters; on such
contents a second application yields byte-identical output.  (Unconditional
idempotence fails: each application strips one further trailing blank line,
see the counterexample.) -/
theorem c3_whitespace_idempotent_amended (content : List Char)
    (h : endsWithTwoNl (fix_whitespace content) = false) :
    fix_whitespace (fix_whitespace content) = fix_whitespace content := by
  rcases fix_whitespace_master content with ⟨qs, hprops, heq, hsplit⟩
  have htab : expandTabs (fix_whitespace content) = fix_whitespace content :=
    expandTabs_of_not_mem _ (fix_whitespace_no_tab content)
  have hfw2 : fix_whitespace (fix_whitespace content) =
      if (joinNl ((splitlines (expandTabs (fix_whitespace content))).map rstrip)).getLast?
          = some '\n'
      then joinNl ((splitlines (expandTabs (fix_whitespace content))).map rstrip)
      else joinNl ((splitlines (expandTabs (fix_whitespace content))).map rstrip)
        ++ ['\n'] := rfl
  rw [htab, hsplit] at hfw2
  by_cases h0 : qs = []
  · rw [if_pos h0] at hfw2
    have hval : fix_whitespace content = ['\n'] := by
      rw [heq, h0]; rfl
    rw [hfw2]
    have : ([[]] : List (List Char)).map rstrip = [[]] := rfl
    rw [this]
    rw [hval]
    decide
  · rw [if_neg h0] at hfw2
    have hmap : qs.map rstrip = qs := by
      have := List.map_congr_left (l := qs) (f := rstrip) (g := id)
        (fun p hp => (hprops p hp).2.1)
      simpa using this
    rw [hmap] at hfw2
    by_cases hj : (joinNl qs).getLast? = some '\n'
    · exfalso
      rcases List.getLast?_eq_some_iff.mp hj with ⟨ys, hys⟩
      have htwo : endsWithTwoNl (fix_whitespace content) = true := by
        rw [heq, hys, List.append_assoc]
        unfold endsWithTwoNl
        rw [List.reverse_append]
        simp [List.isPrefixOf]
      rw [htwo] at h
      exact Bool.noConfusion h
    · rw [hfw2, if_neg hj, heq]

/-- Claim C3 counterexample: the whitespace normalization is not idempotent.
On the content `"b\n\n\n"` one application yields `"b\n\n"` and a second
application yields `"b\n"`, so applying it twice differs from applying it
once. -/
theorem c3_whitespace_idempotent_cex :
    fix_whitespace (fix_whitespace ("b\n\n\n".toList)) ≠
      fix_whitespace ("b\n\n\n".toList) := by decide

/-- Witness for C3 (amended) at the concrete content `"x \n"`, whose
normalized form `"x\n"` ends in a single newline. -/
theorem c3_whitespace_idempotent_witness :
    endsWithTwoNl (fix_whitespace ("x \n".toList)) = false ∧
    fix_whitespace (fix_whitespace ("x \n".toList)) =
      fix_whitespace ("x \n".toList) :=
  ⟨by decide, c3_whitespace_idempotent_amended ("x \n".toList) (by decide)⟩

/-- Claim C4 (amended): one application of the generic whitespace
normalization yields output containing no tab character, ending with at
least one trailing newline, and having no trailing whitespace on any line.
(The original claim's "exactly one trailing newline" fails: the code only
appends a newline when none is present and can leave several, see the
counterexample.) -/
theorem c4_whitespace_normal_form (content : List Char) :
    '\t' ∉ fix_whitespace content ∧
    (fix_whitespace content).getLast? = some '\n' ∧
    ∀ l ∈ splitlines (fix_whitespace content), rstrip l = l :=
  ⟨fix_whitespace_no_tab content, fix_whitespace_ends_nl content,
    fix_whitespace_lines_rstripped content⟩

/-- Witness for C4 at the concrete content `"q\tz  \n\n"`: its normalized
form is `"q    z\n"`, whose single line `"q    z"` is indeed stripped. -/
theorem c4_whitespace_normal_form_witness :
    '\t' ∉ fix_whitespace ("q\tz  \n\n".toList) ∧
    rstrip ("q    z".toList) = "q    z".toList :=
  ⟨(c4_whitespace_normal_form ("q\tz  \n\n".toList)).1,
    (c4_whitespace_normal_form ("q\tz  \n\n".toList)).2.2
      ("q    z".toList) (by decide)⟩

/-- Claim C4 counterexample: a file originally ending with three newlines
ends with two newlines (not exactly one) after one application of the
whitespace normalization. -/
theorem c4_whitespace_normal_form_cex :
    fix_whitespace ("a\n\n\n".toList) = "a\n\n".toList ∧
    endsWithTwoNl (fix_whitespace ("a\n\n\n".toList)) = true := by decide

/-- Decimal value of a digit capture: `int(m.group(1).strip())` (line 100). -/
def digitsToNat (ds : List Char) : Nat :=
  ds.foldl (fun n c => 10 * n + (c.toNat - '0'.toNat)) 0

/-- The captured groups of `re.finditer(r'FILE:\s*([^\n]+)', text)` (lines
91, 95, 99).  The scanner walks the text; at a `FILE:` occurrence it skips
`\s*` and captures the maximal nonempty run of non-newline characters, then
resumes after the match.  (Regex corner not modelled: when the text after
the tag is whitespace to the end of input, `\s*` backtracks and the capture
is pure whitespace, which the later `.strip()` erases anyway.)  The fuel
argument is the length of the scanned text. -/
def scanFileTags : Nat → List Char → List (List Char)
  | 0, _ => []
  | _ + 1, [] => []
  | fuel + 1, c :: cs =>
    if ("FILE:".toList).isPrefixOf (c :: cs) then
      let afterWs := ((c :: cs).drop 5).dropWhile isPySpace
      let cap := afterWs.takeWhile (fun d => !(d == '\n'))
      if cap = [] then scanFileTags fuel cs
      else cap :: scanFileTags fuel (afterWs.drop cap.length)
    else scanFileTags fuel cs

/-- The captured groups of `re.finditer(r'LINE:\s*(\d+)', text)` (lines 92,
96, 100). -/
def scanLineTags : Nat → List Char → List (List Char)
  | 0, _ => []
  | _ + 1, [] => []
  | fuel + 1, c :: cs =>
    if ("LINE:".toList).isPrefixOf (c :: cs) then
      let afterWs := ((c :: cs).drop 5).dropWhile isPySpace
      let cap := afterWs.takeWhile Char.isDigit
      if cap = [] then scanLineTags fuel cs
      else cap :: scanLineTags fuel (afterWs.drop cap.length)
    else scanLineTags fuel cs

/-- The lookahead `\s*(?:FILE|LINE)` used negatively inside the FIX pattern
(line 93): after skipping whitespace the text continues with `FILE` or
`LINE`. -/
def nextIsTag (s : List Char) : Bool :=
  ("FILE".toList).isPrefixOf (s.dropWhile isPySpace) ||
  ("LINE".toList).isPrefixOf (s.dropWhile isPySpace)

/-- Continuation lines of a FIX body, `(?:\n(?!\s*(?:FILE|LINE)).*)*`
(line 93): consume a newline plus the following line as long as the next
line does not start (after whitespace) with `FILE` or `LINE`. -/
def fixBodyCont : Nat → List Char → List Char
  | 0, _ => []
  | _ + 1, [] => []
  | fuel + 1, c :: cs =>
    if c = '\n' && !(nextIsTag cs) then
      let line := cs.takeWhile (fun d => !(d == '\n'))
      '\n' :: (line ++ fixBodyCont fuel (cs.drop line.length))
    else []

/-- The captured groups of
`re.finditer(r'FIX:\s*([^\n]+(?:\n(?!\s*(?:FILE|LINE)).*)*)', text)`
(lines 93, 97, 101). -/
def scanFixTags : Nat → List Char → List (List Char)
  | 0, _ => []
  | _ + 1, [] => []
  | fuel + 1, c :: cs =>
    if ("FIX:".toList).isPrefixOf (c :: cs) then
      let afterWs := ((c :: cs).drop 4).dropWhile isPySpace
      let first := afterWs.takeWhile (fun d => !(d == '\n'))
      if first = [] then scanFixTags fuel cs
      else
        let rest := afterWs.drop first.length
        let cap := first ++ fixBodyCont rest.length rest
        cap :: scanFixTags fuel (afterWs.drop cap.length)
    else scanFixTags fuel cs

def extractFiles (s : List Char) : List (List Char) := scanFileTags s.length s

def extractLines (s : List Char) : List (List Char) := scanLineTags s.length s

def extractFixes (s : List Char) : List (List Char) := scanFixTags s.length s

/-- One parsed fix suggestion `{'file': f, 'line': l, 'fix': fx}`
(line 104). -/
structure FixS where
  file : List Char
  line : Nat
  fix : List Char
deriving DecidableEq

/-- `zip(files, lines, fixes_text)` as consumed by the comprehension on
line 104 (truncates at the shortest list, as in Python). -/
def zip3Fix : List (List Char) → List Nat → List (List Char) → List FixS
  | f :: fs, l :: ls, x :: xs => ⟨f, l, x⟩ :: zip3Fix fs ls xs
  | _, _, _ => []

/-- `BuildErrorHandler._parse_ai_fixes` (lines 88-105): extract the three
tag lists, and pair them positionally only when all three counts agree. -/
def parse_ai_fixes (analysis_text : List Char) : List FixS :=
  let files := (extractFiles analysis_text).map pyStrip
  let lines := (extractLines analysis_text).map digitsToNat
  let fixes_text := (extractFixes analysis_text).map pyStrip
  if files.length = lines.length ∧ lines.length = fixes_text.length then
    zip3Fix files lines fixes_text
  else []

example : extractFiles ("FILE: a.py\nLINE: 3\nFIX: x = 1\n".toList) =
    ["a.py".toList] := by decide
example : extractLines ("FILE: a.py\nLINE: 3\nFIX: x = 1\n".toList) =
    ["3".toList] := by decide
example : extractFixes ("FILE: a.py\nLINE: 3\nFIX: x = 1\n".toList) =
    ["x = 1\n".toList] := by decide
example : parse_ai_fixes ("FILE: a.py\nLINE: 3\nFIX: x = 1\n".toList) =
    [⟨"a.py".toList, 3, "x = 1".toList⟩] := by decide
example : parse_ai_fixes
    ("FILE: a.py\nFILE: b.py\nLINE: 1\nLINE: 2\nFIX: only".toList) = [] := by
  decide
example : extractFixes ("FIX: first\nmore body\nLINE: 9".toList) =
    ["first\nmore body".toList] := by decide

theorem zip3Fix_length :
    ∀ (fs : List (List Char)) (ls : List Nat) (xs : List (List Char)),
      fs.length = ls.length → ls.length = xs.length →
      (zip3Fix fs ls xs).length = fs.length := by
  intro fs
  induction fs with
  | nil => intro ls xs _ _; rfl
  | cons f fs ih =>
    intro ls xs h1 h2
    cases ls with
    | nil => simp at h1
    | cons l ls =>
      cases xs with
      | nil => simp at h2
      | cons x xs =>
        simp only [zip3Fix, List.length_cons]
        rw [ih ls xs (by simpa using h1) (by simpa using h2)]

theorem zip3Fix_get? :
    ∀ (fs : List (List Char)) (ls : List Nat) (xs : List (List Char))
      (i : Nat) (f : List Char) (l : Nat) (x : List Char),
      fs.get? i = some f → ls.get? i = some l → xs.get? i = some x →
      (zip3Fix fs ls xs).get? i = some ⟨f, l, x⟩ := by
  intro fs
  induction fs with
  | nil => intro ls xs i f l x hf; simp at hf
  | cons f0 fs ih =>
    intro ls xs i f l x hf hl hx
    cases ls with
    | nil => simp at hl
    | cons l0 ls =>
      cases xs with
      | nil => simp at hx
      | cons x0 xs =>
        cases i with
        | zero =>
          simp only [List.get?] at hf hl hx
          cases hf; cases hl; cases hx
          rfl
        | succ j =>
          simp only [List.get?] at hf hl hx ⊢
          exact ih ls xs j f l x hf hl hx

/-- Claim C2: `_parse_ai_fixes` obeys the alignment invariant: when the
extracted FILE/LINE/FIX tag counts disagree in any way it returns the empty
list, and when all three counts agree it returns exactly that many
suggestions, pairing the i-th file, i-th line and i-th fix body
positionally (each capture stripped, the line parsed as a decimal). -/
theorem c2_parse_alignment (t : List Char) :
    ((extractFiles t).length ≠ (extractLines t).length ∨
     (extractLines t).length ≠ (extractFixes t).length ∨
     (extractFiles t).length ≠ (extractFixes t).length →
       parse_ai_fixes t = []) ∧
    ((extractFiles t).length = (extractLines t).length ∧
     (extractLines t).length = (extractFixes t).length →
       (parse_ai_fixes t).length = (extractFiles t).length ∧
       ∀ i f l x, (extractFiles t).get? i = some f →
         (extractLines t).get? i = some l →
         (extractFixes t).get? i = some x →
         (parse_ai_fixes t).get? i =
           some ⟨pyStrip f, digitsToNat l, pyStrip x⟩) := by
  constructor
  · intro hd
    simp only [parse_ai_fixes]
    rw [if_neg]
    intro hc
    rcases hc with ⟨h1, h2⟩
    rw [List.length_map, List.length_map] at h1
    rw [List.length_map, List.length_map] at h2
    rcases hd with h | h | h
    · exact h h1
    · exact h h2
    · exact h (h1.trans h2)
  · intro hc
    have hcond : ((extractFiles t).map pyStrip).length =
        ((extractLines t).map digitsToNat).length ∧
        ((extractLines t).map digitsToNat).length =
        ((extractFixes t).map pyStrip).length := by
      simp only [List.length_map]
      exact hc
    constructor
    · simp only [parse_ai_fixes]
      rw [if_pos hcond, zip3Fix_length _ _ _ hcond.1 hcond.2, List.length_map]
    · intro i f l x hf hl hx
      simp only [parse_ai_fixes]
      rw [if_pos hcond]
      exact zip3Fix_get? _ _ _ i _ _ _
        (by rw [List.get?_map, hf]; rfl)
        (by rw [List.get?_map, hl]; rfl)
        (by rw [List.get?_map, hx]; rfl)

/-- Witness for C2 at concrete narratives: a mismatched narrative (two
files, one line, one fix) yields the empty list, and a matched one yields
its positional pairing. -/
theorem c2_parse_alignment_witness :
    parse_ai_fixes ("FILE: a.py\nFILE: b.py\nLINE: 3\nFIX: y = 2".toList)
      = [] ∧
    (parse_ai_fixes ("FILE: a.py\nLINE: 3\nFIX: y = 2".toList)).get? 0 =
      some ⟨"a.py".toList, 3, "y = 2".toList⟩ := by
  constructor
  · exact (c2_parse_alignment _).1 (Or.inl (by decide))
  · have h := ((c2_parse_alignment
        ("FILE: a.py\nLINE: 3\nFIX: y = 2".toList)).2 (by decide)).2
        0 ("a.py".toList) ("3".toList) ("y = 2".toList)
        (by decide) (by decide) (by decide)
    rw [h]
    decide

/-- `error_type = 'minor' if 'MINOR' in ai_analysis else 'major'`
(line 71): a case-sensitive substring test for the uppercase token. -/
def remote_error_type (ai_analysis : List Char) : String :=
  if containsSub ("MINOR".toList) ai_analysis then "minor" else "major"

/-- `fixes = self._parse_ai_fixes(ai_analysis) if error_type == 'minor'
else []` (line 72). -/
def remote_fixes (ai_analysis : List Char) : List FixS :=
  if remote_error_type ai_analysis = "minor" then parse_ai_fixes ai_analysis
  else []

/-- Modelled from the spec: §4.1 describes the remote kind decision as a
"case-insensitive substring match for the literal category token".  This
definition follows the spec's words (lower-case both sides before the
substring test) and exists only for comparison with the code's
`remote_error_type`. -/
def spec_ci_minor_token (ai_analysis : List Char) : Bool :=
  containsSub ("minor".toList) (ai_analysis.map Char.toLower)

/-- Claim C1 counterexample: the narrative `"the failure is minor"`
contains the category token under a case-insensitive match, yet the remote
path classifies it MAJOR — the code's test `'MINOR' in ai_analysis` is
case-sensitive. -/
theorem c1_remote_minor_token_cex :
    spec_ci_minor_token ("the failure is minor".toList) = true ∧
    remote_error_type ("the failure is minor".toList) = "major" := by decide

/-- Claim C1 (amended): the remote path classifies a run MINOR exactly when
the narrative contains the literal uppercase token `"MINOR"` under a
case-sensitive substring match, and a non-empty suggestion list is produced
only when the result is MINOR. -/
theorem c1_remote_minor_token_amended (t : List Char) :
    (remote_error_type t = "minor" ↔ containsSub ("MINOR".toList) t = true) ∧
    (remote_fixes t ≠ [] → remote_error_type t = "minor") := by
  constructor
  · unfold remote_error_type
    by_cases h : containsSub ("MINOR".toList) t = true
    · rw [if_pos h]
      exact ⟨fun _ => h, fun _ => rfl⟩
    · rw [if_neg h]
      exact ⟨fun hq => absurd hq (by decide), fun hq => absurd hq h⟩
  · intro hne
    by_contra hmin
    apply hne
    unfold remote_fixes
    rw [if_neg hmin]

/-- Witness for C1 (amended) at a concrete narrative whose parsed
suggestion list is non-empty. -/
theorem c1_remote_minor_token_witness :
    remote_error_type ("MINOR\nFILE: a.py\nLINE: 1\nFIX: ok".toList) =
      "minor" :=
  (c1_remote_minor_token_amended
    ("MINOR\nFILE: a.py\nLINE: 1\nFIX: ok".toList)).2 (by decide)

/-- Case-insensitive search for a literal pattern:
`re.search(p, build_log, re.IGNORECASE)` (line 121); all table patterns are
regex-literal strings. -/
def searchCI (pat log : List Char) : Bool :=
  containsSub (pat.map Char.toLower) (log.map Char.toLower)

/-- The pattern table of `_analyze_traditional` (lines 113-118), flattened
in its iteration order; the loop sets MINOR on the first category with any
matching pattern and breaks, so the classification depends only on whether
any pattern matches. -/
def table_patterns : List (List Char) :=
  ["indentation contains tabs".toList, "trailing whitespace".toList,
   "cannot find module".toList, "ModuleNotFoundError".toList,
   "SyntaxError".toList, "Missing semicolon".toList,
   "ESLint".toList, "pylint".toList]

/-- The classification kernel of `BuildErrorHandler._analyze_traditional`
(lines 107-129): the table scan, then the two project-specific overrides.
The overrides use case-sensitive `re.search`, and line 126 compares the
context against the stale value `'node'` (the workflow's detector only ever
emits `'nodejs'`, as the comments on lines 219 and 257 note). -/
def analyze_traditional (project_type : String) (build_log : List Char) :
    String :=
  let base :=
    if table_patterns.any (fun p => searchCI p build_log) then "minor"
    else "major"
  if project_type = "node" ∧
      containsSub ("npm ERR! missing script".toList) build_log = true then
    "minor"
  else if project_type = "python" ∧
      containsSub ("IndentationError".toList) build_log = true then
    "minor"
  else base

/-- The structured decision record dumped to `ai_fixes.json` (line 76). -/
structure Record where
  error_type : String
  analysis : List Char
  fixes : List FixS
deriving DecidableEq

/-- Node manifest data touched by the script: the `dependencies` and
`scripts` maps of `package.json`, as insertion-ordered association lists
(other JSON fields are untouched by the code and not modelled). -/
structure NodeManifest where
  dependencies : List (List Char × List Char)
  scripts : List (List Char × List Char)
deriving DecidableEq

/-- Contents of a filesystem entry as the script distinguishes them: plain
text files, the JSON decision record, the bare-kind flag file, the Node
manifest, and directories. -/
inductive FileData where
  | text : List Char → FileData
  | record : Record → FileData
  | flag : String → FileData
  | manifest : NodeManifest → FileData
  | dir : FileData
deriving DecidableEq

/-- The two writes performed by `_analyze_with_ai` once a remote narrative
is received (lines 74-79): the full record to `ai_fixes.json` and the bare
kind to `error_type.txt`, both opened in `'w'` mode (overwrite). -/
def analyze_with_ai_writes (ai_analysis : List Char) :
    List (List Char × FileData) :=
  [("ai_fixes.json".toList,
      FileData.record ⟨remote_error_type ai_analysis, ai_analysis,
        remote_fixes ai_analysis⟩),
   ("error_type.txt".toList, FileData.flag (remote_error_type ai_analysis))]

/-- The single write performed by `_analyze_traditional` (lines 131-132):
only the bare-kind flag file. -/
def analyze_traditional_writes (project_type : String)
    (build_log : List Char) : List (List Char × FileData) :=
  [("error_type.txt".toList,
      FileData.flag (analyze_traditional project_type build_log))]

/-- `_analyze_traditional` returns `error_type, []` (line 135): the
fallback path never supplies fix suggestions. -/
def analyze_traditional_result (project_type : String)
    (build_log : List Char) : String × List FixS :=
  (analyze_traditional project_type build_log, [])

/-- Claim C6 (code-bug evidence): with the workflow's context value
`"nodejs"` the npm-missing-script override does not fire (line 126 compares
against the stale value `'node'`), so the transcript is classified MAJOR;
with the value `'node'` that no collaborator emits it would be MINOR; the
python/IndentationError override works as claimed. -/
theorem c6_context_overrides :
    analyze_traditional "nodejs"
      ("npm ERR! missing script: build".toList) = "major" ∧
    analyze_traditional "node"
      ("npm ERR! missing script: build".toList) = "minor" ∧
    analyze_traditional "python"
      ("IndentationError: unexpected indent".toList) = "minor" := by decide

/-- Claim C8 (amended): on the remote path the full decision record
{kind, narrative, suggestions} is written to `ai_fixes.json` and the bare
kind (always `"minor"` or `"major"`) to `error_type.txt`; the
pattern-fallback path writes only the flag file and never the structured
record. -/
theorem c8_persistence_amended (t : List Char) (pt : String)
    (log : List Char) :
    (∃ r : Record,
      analyze_with_ai_writes t =
        [("ai_fixes.json".toList, FileData.record r),
         ("error_type.txt".toList, FileData.flag r.error_type)] ∧
      (r.error_type = "minor" ∨ r.error_type = "major") ∧
      r.analysis = t ∧ r.fixes = remote_fixes t) ∧
    (∃ k, analyze_traditional_writes pt log =
        [("error_type.txt".toList, FileData.flag k)] ∧
      (k = "minor" ∨ k = "major") ∧ k = analyze_traditional pt log) := by
  constructor
  · refine ⟨⟨remote_error_type t, t, remote_fixes t⟩, rfl, ?_, rfl, rfl⟩
    unfold remote_error_type
    by_cases h : containsSub ("MINOR".toList) t = true
    · rw [if_pos h]; exact Or.inl rfl
    · rw [if_neg h]; exact Or.inr rfl
  · refine ⟨analyze_traditional pt log, rfl, ?_, rfl⟩
    unfold analyze_traditional
    split_ifs <;> simp

/-- Claim C8 counterexample: on a concrete pattern-fallback run the set of
files written is exactly `error_type.txt`; in particular the structured
record `ai_fixes.json` is not persisted on that path, contrary to the
claim that both artifacts are written on both paths. -/
theorem c8_persistence_cex :
    (analyze_traditional_writes "python"
        ("IndentationError".toList)).map Prod.fst =
      ["error_type.txt".toList] ∧
    ("ai_fixes.json".toList ∉
      (analyze_traditional_writes "python"
        ("IndentationError".toList)).map Prod.fst) := by decide

/-- A filesystem snapshot: path ↦ contents, as an association list with
first-match-wins lookup. -/
abbrev FS := List (List Char × FileData)

/-- First-match association lookup (`os.path.exists`, dict membership and
file reads are all modelled through it). -/
def alookup {β : Type} (k : List Char) : List (List Char × β) → Option β
  | [] => none
  | (q, v) :: rest => if q = k then some v else alookup k rest

/-- Overwriting write of one path, Python `open(p, 'w')` followed by a
write: the path maps to the new contents, every other path is unchanged. -/
def fsWrite (fs : FS) (p : List Char) (d : FileData) : FS :=
  (p, d) :: fs.filter (fun e => decide (¬ e.1 = p))

/-- `file.readlines()` (line 179): split into lines, each keeping its
trailing newline when present. -/
def readlines : List Char → List (List Char)
  | [] => []
  | c :: cs =>
    if c = '\n' then ['\n'] :: readlines cs
    else
      match readlines cs with
      | [] => [[c]]
      | l :: ls => (c :: l) :: ls

/-- `BuildErrorHandler._apply_single_fix` (lines 172-188).  Mirrors the
guard `not file_path or not os.path.exists(file_path) or not line_num or
not fix_content` (Python truthiness: `None` and the empty string are
missing, line number 0 is falsy), the bounds check
`1 <= line_num <= len(lines)`, and on success the single-line overwrite
`lines[line_num - 1] = fix_content + '\n'` followed by `writelines`.  A
path whose entry is not a text file models the exception path (the read
raises and the function returns False). -/
def apply_single_fix (fs : FS) (file_path : Option (List Char))
    (line_num : Option Int) (fix_content : Option (List Char)) :
    FS × Bool :=
  match file_path with
  | none => (fs, false)
  | some p =>
    if p = [] then (fs, false)
    else
      match alookup p fs with
      | some (FileData.text content) =>
        match line_num with
        | none => (fs, false)
        | some n =>
          if n = 0 then (fs, false)
          else
            match fix_content with
            | none => (fs, false)
            | some fx =>
              if fx = [] then (fs, false)
              else
                let lines := readlines content
                if 1 ≤ n ∧ n ≤ (lines.length : Int) then
                  (fsWrite fs p (FileData.text
                    ((lines.set (n - 1).toNat (fx ++ ['\n'])).flatten)),
                    true)
                else (fs, false)
      | _ => (fs, false)

/-- The loop over the suggestions read from `ai_fixes.json` (lines
147-149): every suggestion is attempted in order, successes are counted,
and a failing suggestion never stops the batch.  (Suggestions from the
structured record always carry all three keys, so `fix.get(...)` is
`some`.) -/
def applyFixList (fs : FS) : List FixS → FS × Nat
  | [] => (fs, 0)
  | f :: rest =>
    let r1 := apply_single_fix fs (some f.file) (some (f.line : Int))
      (some f.fix)
    let r2 := applyFixList r1.1 rest
    (r2.1, (if r1.2 then 1 else 0) + r2.2)

/-- `_fix_whitespace(file_path)` as a filesystem step (lines 233-247): the
file is rewritten with its normalized content; the exception path (the
entry is not a readable text file) leaves the filesystem unchanged. -/
def fix_whitespace_file (fs : FS) (p : List Char) : FS :=
  match alookup p fs with
  | some (FileData.text c) => fsWrite fs p (FileData.text (fix_whitespace c))
  | _ => fs

/-- Case-insensitive prefix test, for the `re.IGNORECASE` literal part of
the node missing-module pattern (line 264). -/
def ciIsPrefixOf : List Char → List Char → Bool
  | [], _ => true
  | _ :: _, [] => false
  | p :: ps, s :: ss => (p.toLower == s.toLower) && ciIsPrefixOf ps ss

/-- A character of the regex class `['"]`. -/
def isQuote (c : Char) : Bool := c = '\'' || c = '"'

/-- `re.findall(r'cannot find module [\'"]([^\'"]+)[\'"]', build_log,
re.IGNORECASE)` (line 264), as a fueled scanner: at a case-insensitive
occurrence of the literal followed by a quote, capture the nonempty run up
to the closing quote. -/
def scanMissingNode : Nat → List Char → List (List Char)
  | 0, _ => []
  | _ + 1, [] => []
  | fuel + 1, c :: cs =>
    if ciIsPrefixOf ("cannot find module ".toList) (c :: cs) then
      match (c :: cs).drop 19 with
      | [] => scanMissingNode fuel cs
      | q :: rest2 =>
        if isQuote q then
          let cap := rest2.takeWhile (fun d => !(isQuote d))
          if cap = [] then scanMissingNode fuel cs
          else
            match rest2.drop cap.length with
            | [] => scanMissingNode fuel cs
            | _ :: rest3 => cap :: scanMissingNode fuel rest3
        else scanMissingNode fuel cs
    else scanMissingNode fuel cs

/-- `re.findall(lit + quoted name)` for the two case-sensitive python
missing-module patterns (lines 284-285). -/
def scanQuotedAfter (lit : List Char) : Nat → List Char → List (List Char)
  | 0, _ => []
  | _ + 1, [] => []
  | fuel + 1, c :: cs =>
    if lit.isPrefixOf (c :: cs) then
      match (c :: cs).drop lit.length with
      | [] => scanQuotedAfter lit fuel cs
      | q :: rest2 =>
        if isQuote q then
          let cap := rest2.takeWhile (fun d => !(isQuote d))
          if cap = [] then scanQuotedAfter lit fuel cs
          else
            match rest2.drop cap.length with
            | [] => scanQuotedAfter lit fuel cs
            | _ :: rest3 => cap :: scanQuotedAfter lit fuel rest3
        else scanQuotedAfter lit fuel cs
    else scanQuotedAfter lit fuel cs

/-- `m.split('.')[0]` (lines 289, 296): the top-level module name. -/
def topLevel (m : List Char) : List Char :=
  m.takeWhile (fun d => !(d == '.'))

/-- The dependency-map update of `_fix_node_imports` (lines 273-277):
`data.setdefault('dependencies', {})`, then each missing module is added
with the wildcard version `'*'` when it is not already a key. -/
def node_add_missing (deps : List (List Char × List Char))
    (missing : List (List Char)) : List (List Char × List Char) :=
  missing.foldl
    (fun d m => if (alookup m d).isSome then d else d ++ [(m, "*".toList)])
    deps

/-- The guard of the requirements loop (line 297): some existing line
equals the module name or pins it with `==`. -/
def pyCovered (rs : List (List Char)) (m : List Char) : Bool :=
  rs.any (fun line => (m ++ "==".toList).isPrefixOf line || line == m)

/-- The requirements update of `_fix_python_imports` (lines 293-301): each
distinct top-level missing module name is appended unless an existing line
equals it or pins it with `==`.  Python iterates an unordered set here; the
embedding fixes one enumeration order of the distinct names. -/
def python_add_reqs (reqs : List (List Char)) (missing : List (List Char)) :
    List (List Char) :=
  ((missing.map topLevel).dedup).foldl
    (fun rs m => if pyCovered rs m then rs else rs ++ [m])
    reqs

/-- `BuildErrorHandler._fix_node_imports` (lines 262-281) as a filesystem
step; the best-effort `npm install` subprocess is an external effect and
not part of the filesystem model. -/
def fix_node_imports (build_log : List Char) (fs : FS) : FS :=
  let missing := scanMissingNode build_log.length build_log
  if missing = [] then fs
  else
    match alookup ("package.json".toList) fs with
    | some (FileData.manifest m) =>
      fsWrite fs ("package.json".toList)
        (FileData.manifest ⟨node_add_missing m.dependencies missing,
          m.scripts⟩)
    | _ => fs

/-- `BuildErrorHandler._fix_python_imports` (lines 282-301) as a
filesystem step; the best-effort `pip install` subprocess is external.
The file is rewritten as `'\n'.join(reqs) + '\n'` over its splitlines. -/
def fix_python_imports (build_log : List Char) (fs : FS) : FS :=
  let missing :=
    scanQuotedAfter ("No module named ".toList) build_log.length build_log
      ++ scanQuotedAfter ("ModuleNotFoundError: No module named ".toList)
        build_log.length build_log
  if missing = [] then fs
  else
    match alookup ("requirements.txt".toList) fs with
    | some (FileData.text content) =>
      fsWrite fs ("requirements.txt".toList)
        (FileData.text
          (joinNl (python_add_reqs (splitlines content) missing) ++ ['\n']))
    | _ => fs

/-- `BuildErrorHandler._fix_imports` (lines 249-260); the build log exists
whenever remediation runs (analysis already read it), so its content is a
parameter. -/
def fix_imports (project_type : String) (build_log : List Char) (fs : FS) :
    FS :=
  if project_type = "nodejs" then fix_node_imports build_log fs
  else if project_type = "python" then fix_python_imports build_log fs
  else fs

/-- Step 1 of `_apply_fixes` (lines 141-149): when `ai_fixes.json` exists
on disk, apply the suggestions read from it.  (An unparseable record file
would raise out of `_apply_fixes` in Python and is outside the model.) -/
def targeted_step (fs : FS) : FS × Nat :=
  match alookup ("ai_fixes.json".toList) fs with
  | some (FileData.record r) => applyFixList fs r.fixes
  | _ => (fs, 0)

/-- Step 2 of `_apply_fixes` (lines 152-159): for every enumerated project
file that exists, run the whitespace and import fixes and increment the
counter — whether or not anything changed.  (Line 152's
`_extract_error_details()` result is never used and line 153's glob
enumeration is the `files` parameter.) -/
def normalize_step (project_type : String) (build_log : List Char) :
    FS → List (List Char) → FS × Nat
  | fs, [] => (fs, 0)
  | fs, p :: rest =>
    if (alookup p fs).isSome = true then
      let fs1 := fix_whitespace_file fs p
      let fs2 := fix_imports project_type build_log fs1
      let r := normalize_step project_type build_log fs2 rest
      (r.1, 1 + r.2)
    else normalize_step project_type build_log fs rest

/-- `BuildErrorHandler._ensure_build_script` (lines 303-312). -/
def ensure_build_script (fs : FS) : FS :=
  match alookup ("package.json".toList) fs with
  | some (FileData.manifest m) =>
    if (alookup ("build".toList) m.scripts).isSome then fs
    else
      fsWrite fs ("package.json".toList)
        (FileData.manifest ⟨m.dependencies,
          m.scripts ++
            [("build".toList,
              "echo \"No build script specified\"".toList)]⟩)
  | _ => fs

/-- Step 3 of `_apply_fixes` (lines 161-167): project scaffolding.  Line
162 again compares against the stale context value `'node'`; the python
branch creates `tests/` and `tests/__init__.py` when no `tests` entry
exists.  Neither branch touches the fix counter. -/
def scaffold_step (project_type : String) (fs : FS) : FS :=
  if project_type = "node" ∧
      (alookup ("package.json".toList) fs).isSome = true then
    ensure_build_script fs
  else if project_type = "python" ∧
      (alookup ("tests".toList) fs).isSome = false then
    fsWrite (fsWrite fs ("tests".toList) FileData.dir)
      ("tests/__init__.py".toList)
      (FileData.text ("# Test initialization\n".toList))
  else fs

/-- `BuildErrorHandler._apply_fixes` (lines 137-170): the three filesystem
steps in order; the returned count is incremented only by steps 1 and 2. -/
def apply_fixes (project_type : String) (build_log : List Char)
    (files : List (List Char)) (fs : FS) : FS × Nat :=
  let r1 := targeted_step fs
  let r2 := normalize_step project_type build_log r1.1 files
  (scaffold_step project_type r2.1, r1.2 + r2.2)

/-- `BuildErrorHandler.fix_errors` (lines 39-44, 170): remediation runs
only on a MINOR classification and reports success exactly when
`applied_fixes > 0`. -/
def fix_errors (error_type : String) (project_type : String)
    (build_log : List Char) (files : List (List Char)) (fs : FS) :
    FS × Bool :=
  if error_type = "minor" then
    let r := apply_fixes project_type build_log files fs
    (r.1, decide (r.2 > 0))
  else (fs, false)

example : readlines ("a\nbc".toList) = ["a\n".toList, "bc".toList] := by
  decide
example :
    apply_single_fix [(("f.py".toList), FileData.text ("one\ntwo\n".toList))]
      (some ("f.py".toList)) (some 2) (some ("TWO".toList)) =
    ([(("f.py".toList), FileData.text ("one\nTWO\n".toList))], true) := by
  decide
example :
    apply_single_fix [(("f.py".toList), FileData.text ("one\ntwo\n".toList))]
      (some ("f.py".toList)) (some 3) (some ("TWO".toList)) =
    ([(("f.py".toList), FileData.text ("one\ntwo\n".toList))], false) := by
  decide
example :
    scanMissingNode ("Error: Cannot find module 'lodash'".toList).length
      ("Error: Cannot find module 'lodash'".toList) = ["lodash".toList] := by
  decide
example :
    scanQuotedAfter ("No module named ".toList)
      ("ModuleNotFoundError: No module named 'yaml'".toList).length
      ("ModuleNotFoundError: No module named 'yaml'".toList) =
    ["yaml".toList] := by decide
example :
    python_add_reqs ["numpy==1.0".toList] ["numpy.linalg".toList] =
    ["numpy==1.0".toList] := by decide
example :
    python_add_reqs ["flask".toList] ["yaml".toList, "yaml.safe".toList] =
    ["flask".toList, "yaml".toList] := by decide
example :
    node_add_missing [("a".toList, "1.0".toList)]
      ["b".toList, "a".toList, "b".toList] =
    [("a".toList, "1.0".toList), ("b".toList, "*".toList)] := by decide

theorem alookup_cons {β : Type} (a : List Char × β)
    (t : List (List Char × β)) (q : List Char) :
    alookup q (a :: t) = if a.1 = q then some a.2 else alookup q t := by
  cases a
  rfl

theorem alookup_filter_ne {β : Type} (p q : List Char)
    (l : List (List Char × β)) (h : ¬ p = q) :
    alookup q (l.filter (fun e => decide (¬ e.1 = p))) = alookup q l := by
  induction l with
  | nil => rfl
  | cons a t ih =>
    by_cases hap : a.1 = p
    · rw [List.filter_cons, if_neg (by simp [hap]), ih, alookup_cons,
        if_neg (fun hq => h (hap ▸ hq))]
    · rw [List.filter_cons, if_pos (by simp [hap]), alookup_cons,
        alookup_cons]
      by_cases haq : a.1 = q
      · rw [if_pos haq, if_pos haq]
      · rw [if_neg haq, if_neg haq, ih]

theorem alookup_fsWrite (fs : FS) (p : List Char) (d : FileData)
    (q : List Char) :
    alookup q (fsWrite fs p d) = if p = q then some d else alookup q fs := by
  unfold fsWrite
  rw [alookup_cons]
  by_cases hpq : p = q
  · rw [if_pos hpq, if_pos hpq]
  · rw [if_neg hpq, if_neg hpq]
    exact alookup_filter_ne p q fs hpq

theorem presence_fsWrite_of_mem (fs : FS) (p : List Char) (d : FileData)
    (q : List Char) (hp : (alookup p fs).isSome = true) :
    (alookup q (fsWrite fs p d)).isSome = (alookup q fs).isSome := by
  rw [alookup_fsWrite]
  by_cases hpq : p = q
  · rw [if_pos hpq]
    subst hpq
    rw [hp]
    rfl
  · rw [if_neg hpq]

/-- The success condition of `_apply_single_fix` read off its guards
(lines 174, 181): all three fields present and non-falsy, the target file
an existing text file, and the 1-based line number within the file's
current line count. -/
def fixApplicable (fs : FS) (fp : Option (List Char)) (ln : Option Int)
    (fx : Option (List Char)) : Prop :=
  ∃ p n f c, fp = some p ∧ p ≠ [] ∧
    alookup p fs = some (FileData.text c) ∧
    ln = some n ∧ fx = some f ∧ f ≠ [] ∧
    1 ≤ n ∧ n ≤ ((readlines c).length : Int)

theorem apply_single_fix_cases (fs : FS) (fp : Option (List Char))
    (ln : Option Int) (fx : Option (List Char)) :
    (apply_single_fix fs fp ln fx = (fs, false) ∧
      ¬ fixApplicable fs fp ln fx) ∨
    (∃ p n f c, fp = some p ∧ p ≠ [] ∧
      alookup p fs = some (FileData.text c) ∧
      ln = some n ∧ fx = some f ∧ f ≠ [] ∧
      1 ≤ n ∧ n ≤ ((readlines c).length : Int) ∧
      apply_single_fix fs fp ln fx =
        (fsWrite fs p (FileData.text
          (((readlines c).set (n - 1).toNat (f ++ ['\n'])).flatten)),
          true)) := by
  rcases fp with _ | p
  · exact Or.inl ⟨rfl, by rintro ⟨p, n, f, c, h, _⟩; cases h⟩
  · by_cases hp : p = []
    · refine Or.inl ⟨?_, ?_⟩
      · simp only [apply_single_fix]
        rw [if_pos hp]
      · rintro ⟨p2, n, f, c, hfp, hne, _⟩
        cases hfp
        exact hne hp
    · cases hc : alookup p fs with
      | none =>
        refine Or.inl ⟨?_, ?_⟩
        · simp only [apply_single_fix, hc]
          rw [if_neg hp]
        · rintro ⟨p2, n, f, c, hfp, _, hl, _⟩
          cases hfp
          rw [hc] at hl
          cases hl
      | some d =>
        cases d with
        | text content =>
          rcases ln with _ | n
          · refine Or.inl ⟨?_, ?_⟩
            · simp only [apply_single_fix, hc]
              rw [if_neg hp]
            · rintro ⟨p2, n, f, c, hfp, _, _, hl, _⟩
              cases hfp
              cases hl
          · by_cases hn : n = 0
            · refine Or.inl ⟨?_, ?_⟩
              · simp only [apply_single_fix, hc]
                rw [if_neg hp, if_pos hn]
              · rintro ⟨p2, n2, f, c, hfp, _, _, hl, _, _, h1, _⟩
                cases hfp
                cases hl
                omega
            · rcases fx with _ | f
              · refine Or.inl ⟨?_, ?_⟩
                · simp only [apply_single_fix, hc]
                  rw [if_neg hp, if_neg hn]
                · rintro ⟨p2, n2, f, c, hfp, _, _, _, hf, _⟩
                  cases hf
              · by_cases hf : f = []
                · refine Or.inl ⟨?_, ?_⟩
                  · simp only [apply_single_fix, hc]
                    rw [if_neg hp, if_neg hn, if_pos hf]
                  · rintro ⟨p2, n2, f2, c, hfp, _, _, _, hf2, hfne, _⟩
                    cases hfp
                    cases hf2
                    exact hfne hf
                · by_cases hrange :
                    1 ≤ n ∧ n ≤ ((readlines content).length : Int)
                  · refine Or.inr ⟨p, n, f, content, rfl, hp, hc, rfl, rfl,
                      hf, hrange.1, hrange.2, ?_⟩
                    simp only [apply_single_fix, hc]
                    rw [if_neg hp, if_neg hn, if_neg hf, if_pos hrange]
                  · refine Or.inl ⟨?_, ?_⟩
                    · simp only [apply_single_fix, hc]
                      rw [if_neg hp, if_neg hn, if_neg hf,
                        if_neg hrange]
                    · rintro ⟨p2, n2, f2, c, hfp, _, hl, hn2, hf2, _, h1, h2⟩
                      cases hfp
                      cases hn2
                      cases hf2
                      rw [hc] at hl
                      cases hl
                      exact hrange ⟨h1, h2⟩
        | record r =>
          refine Or.inl ⟨?_, ?_⟩
          · simp only [apply_single_fix, hc]
            rw [if_neg hp]
          · rintro ⟨p2, n, f, c, hfp, _, hl, _⟩
            cases hfp
            rw [hc] at hl
            cases hl
        | flag k =>
          refine Or.inl ⟨?_, ?_⟩
          · simp only [apply_single_fix, hc]
            rw [if_neg hp]
          · rintro ⟨p2, n, f, c, hfp, _, hl, _⟩
            cases hfp
            rw [hc] at hl
            cases hl
        | manifest m =>
          refine Or.inl ⟨?_, ?_⟩
          · simp only [apply_single_fix, hc]
            rw [if_neg hp]
          · rintro ⟨p2, n, f, c, hfp, _, hl, _⟩
            cases hfp
            rw [hc] at hl
            cases hl
        | dir =>
          refine Or.inl ⟨?_, ?_⟩
          · simp only [apply_single_fix, hc]
            rw [if_neg hp]
          · rintro ⟨p2, n, f, c, hfp, _, hl, _⟩
            cases hfp
            rw [hc] at hl
            cases hl

/-- Claim C5: a targeted fix is written only when the suggestion's three
fields are present (Python truthiness), the target file exists as readable
text, and the 1-based line number is within the file's current line count;
a suggestion failing any condition returns failure and leaves the
filesystem untouched; and a failing suggestion never aborts the rest of the
batch (the loop continues on the unchanged state). -/
theorem c5_targeted_fix_safety (fs : FS) (fp : Option (List Char))
    (ln : Option Int) (fx : Option (List Char)) :
    ((apply_single_fix fs fp ln fx).2 = false →
      (apply_single_fix fs fp ln fx).1 = fs) ∧
    ((apply_single_fix fs fp ln fx).2 = true ↔ fixApplicable fs fp ln fx) ∧
    (∀ (g : FixS) (rest : List FixS),
      (applyFixList fs (g :: rest)).1 =
        (applyFixList
          (apply_single_fix fs (some g.file) (some (g.line : Int))
            (some g.fix)).1 rest).1) := by
  rcases apply_single_fix_cases fs fp ln fx with ⟨heq, hnot⟩ |
    ⟨p, n, f, c, h1, h2, h3, h4, h5, h6, h7, h8, heq⟩
  · refine ⟨fun _ => by rw [heq], ?_, fun g rest => rfl⟩
    rw [heq]
    constructor
    · intro hft
      exact Bool.noConfusion hft
    · intro ha
      exact absurd ha hnot
  · refine ⟨?_, ?_, fun g rest => rfl⟩
    · intro hfalse
      rw [heq] at hfalse
      exact Bool.noConfusion hfalse
    · rw [heq]
      exact ⟨fun _ => ⟨p, n, f, c, h1, h2, h3, h4, h5, h6, h7, h8⟩,
        fun _ => rfl⟩

/-- Witness for C5 at a concrete skipped suggestion: the target file does
not exist in the empty filesystem, so the application fails and the
filesystem is unchanged. -/
theorem c5_targeted_fix_safety_witness :
    (apply_single_fix [] (some ("a.py".toList)) (some 5)
      (some ("x".toList))).1 = ([] : FS) :=
  (c5_targeted_fix_safety [] (some ("a.py".toList)) (some 5)
    (some ("x".toList))).1 (by decide)

theorem presence_apply_single_fix (fs : FS) (fp : Option (List Char))
    (ln : Option Int) (fx : Option (List Char)) (q : List Char) :
    (alookup q ((apply_single_fix fs fp ln fx).1)).isSome =
      (alookup q fs).isSome := by
  rcases apply_single_fix_cases fs fp ln fx with ⟨heq, _⟩ |
    ⟨p, n, f, c, _, _, h3, _, _, _, _, _, heq⟩
  · rw [heq]
  · rw [heq]
    exact presence_fsWrite_of_mem fs p _ q (by rw [h3]; rfl)

theorem presence_applyFixList (l : List FixS) :
    ∀ (fs : FS) (q : List Char),
      (alookup q ((applyFixList fs l).1)).isSome = (alookup q fs).isSome := by
  induction l with
  | nil => intro fs q; rfl
  | cons f rest ih =>
    intro fs q
    have h1 := presence_apply_single_fix fs (some f.file)
      (some (f.line : Int)) (some f.fix) q
    have h2 := ih (apply_single_fix fs (some f.file) (some (f.line : Int))
      (some f.fix)).1 q
    exact h2.trans h1

theorem presence_fix_whitespace_file (fs : FS) (p q : List Char) :
    (alookup q (fix_whitespace_file fs p)).isSome = (alookup q fs).isSome := by
  unfold fix_whitespace_file
  cases hc : alookup p fs with
  | none => rfl
  | some d =>
    cases d with
    | text c => exact presence_fsWrite_of_mem fs p _ q (by rw [hc]; rfl)
    | record r => rfl
    | flag k => rfl
    | manifest m => rfl
    | dir => rfl

theorem presence_fix_node_imports (log : List Char) (fs : FS)
    (q : List Char) :
    (alookup q (fix_node_imports log fs)).isSome = (alookup q fs).isSome := by
  simp only [fix_node_imports]
  by_cases hm : scanMissingNode log.length log = []
  · rw [if_pos hm]
  · rw [if_neg hm]
    cases hc : alookup ("package.json".toList) fs with
    | none => rfl
    | some d =>
      cases d with
      | text c => rfl
      | record r => rfl
      | flag k => rfl
      | manifest m =>
        exact presence_fsWrite_of_mem fs _ _ q (by rw [hc]; rfl)
      | dir => rfl

theorem presence_fix_python_imports (log : List Char) (fs : FS)
    (q : List Char) :
    (alookup q (fix_python_imports log fs)).isSome =
      (alookup q fs).isSome := by
  simp only [fix_python_imports]
  by_cases hm : scanQuotedAfter ("No module named ".toList) log.length log
      ++ scanQuotedAfter ("ModuleNotFoundError: No module named ".toList)
        log.length log = []
  · rw [if_pos hm]
  · rw [if_neg hm]
    cases hc : alookup ("requirements.txt".toList) fs with
    | none => rfl
    | some d =>
      cases d with
      | text c =>
        exact presence_fsWrite_of_mem fs _ _ q (by rw [hc]; rfl)
      | record r => rfl
      | flag k => rfl
      | manifest m => rfl
      | dir => rfl

theorem presence_fix_imports (pt : String) (log : List Char) (fs : FS)
    (q : List Char) :
    (alookup q (fix_imports pt log fs)).isSome = (alookup q fs).isSome := by
  unfold fix_imports
  by_cases h1 : pt = "nodejs"
  · rw [if_pos h1]
    exact presence_fix_node_imports log fs q
  · rw [if_neg h1]
    by_cases h2 : pt = "python"
    · rw [if_pos h2]
      exact presence_fix_python_imports log fs q
    · rw [if_neg h2]

theorem presence_targeted_step (fs : FS) (q : List Char) :
    (alookup q ((targeted_step fs).1)).isSome = (alookup q fs).isSome := by
  unfold targeted_step
  cases hc : alookup ("ai_fixes.json".toList) fs with
  | none => rfl
  | some d =>
    cases d with
    | text c => rfl
    | record r => exact presence_applyFixList r.fixes fs q
    | flag k => rfl
    | manifest m => rfl
    | dir => rfl

theorem normalize_step_count (pt : String) (log : List Char) :
    ∀ (files : List (List Char)) (fs : FS),
      (normalize_step pt log fs files).2 =
        files.countP (fun p => (alookup p fs).isSome) := by
  intro files
  induction files with
  | nil => intro fs; simp [normalize_step]
  | cons p rest ih =>
    intro fs
    by_cases hp : (alookup p fs).isSome = true
    · have heq : normalize_step pt log fs (p :: rest) =
          ((normalize_step pt log
              (fix_imports pt log (fix_whitespace_file fs p)) rest).1,
            1 + (normalize_step pt log
              (fix_imports pt log (fix_whitespace_file fs p)) rest).2) := by
        simp only [normalize_step]
        rw [if_pos hp]
      rw [heq, List.countP_cons]
      simp only [hp, if_pos]
      rw [ih]
      have hcongr : rest.countP (fun x =>
          (alookup x (fix_imports pt log (fix_whitespace_file fs p))).isSome)
          = rest.countP (fun x => (alookup x fs).isSome) :=
        List.countP_congr (fun x _ => by
          rw [presence_fix_imports, presence_fix_whitespace_file])
      rw [hcongr]
      omega
    · have heq : normalize_step pt log fs (p :: rest) =
          normalize_step pt log fs rest := by
        simp only [normalize_step]
        rw [if_neg hp]
      rw [heq, List.countP_cons, ih]
      simp [hp]

/-- Claim C7 (amended): the fix counter counts one per successful targeted
fix and one per enumerated project file that exists — whether or not its
normalization changed anything — and the dependency-resolution and
scaffolding steps never increment it; `fix_errors` on a MINOR run reports
success exactly when that counter is positive.  (So a run that changes
nothing but walks one existing file reports success, and a scaffolding-only
run reports failure; see the counterexample.) -/
theorem c7_success_condition (pt : String) (log : List Char)
    (files : List (List Char)) (fs : FS) :
    (apply_fixes pt log files fs).2 =
      (targeted_step fs).2 +
        files.countP (fun p => (alookup p fs).isSome) ∧
    ((fix_errors "minor" pt log files fs).2 = true ↔
      0 < (targeted_step fs).2 +
        files.countP (fun p => (alookup p fs).isSome)) := by
  have hcount : (apply_fixes pt log files fs).2 =
      (targeted_step fs).2 +
        files.countP (fun p => (alookup p fs).isSome) := by
    show (targeted_step fs).2 +
      (normalize_step pt log (targeted_step fs).1 files).2 = _
    rw [normalize_step_count]
    congr 1
    exact List.countP_congr (fun x _ => by rw [presence_targeted_step fs x])
  refine ⟨hcount, ?_⟩
  show decide ((apply_fixes pt log files fs).2 > 0) = true ↔ _
  rw [decide_eq_true_eq, hcount]

/-- Claim C7 counterexample: a python run with no project files and no
`tests` directory applies only the scaffolding fix (creating `tests/` and
`tests/__init__.py`) yet reports zero fixes (failure); and a run over one
already-normalized file changes nothing yet reports one applied fix
(success). -/
theorem c7_success_condition_cex :
    ((apply_fixes "python" [] [] []).2 = 0 ∧
      (apply_fixes "python" [] [] []).1 ≠ ([] : FS)) ∧
    ((apply_fixes "python" []
        ["a.py".toList]
        [(("a.py".toList), FileData.text ("x\n".toList)),
         (("tests".toList), FileData.dir)]).1 =
      [(("a.py".toList), FileData.text ("x\n".toList)),
       (("tests".toList), FileData.dir)] ∧
     0 < (apply_fixes "python" []
        ["a.py".toList]
        [(("a.py".toList), FileData.text ("x\n".toList)),
         (("tests".toList), FileData.dir)]).2) := by decide

theorem alookup_append_of_some {β : Type} (q : List Char) (v : β)
    (l1 l2 : List (List Char × β)) (h : alookup q l1 = some v) :
    alookup q (l1 ++ l2) = some v := by
  induction l1 with
  | nil => cases h
  | cons a t ih =>
    rw [List.cons_append, alookup_cons]
    rw [alookup_cons] at h
    by_cases ha : a.1 = q
    · rw [if_pos ha]
      rw [if_pos ha] at h
      exact h
    · rw [if_neg ha]
      rw [if_neg ha] at h
      exact ih h

theorem alookup_append_of_none {β : Type} (q : List Char)
    (l1 l2 : List (List Char × β)) (h : alookup q l1 = none) :
    alookup q (l1 ++ l2) = alookup q l2 := by
  induction l1 with
  | nil => rfl
  | cons a t ih =>
    rw [List.cons_append, alookup_cons]
    rw [alookup_cons] at h
    by_cases ha : a.1 = q
    · rw [if_pos ha] at h
      cases h
    · rw [if_neg ha]
      rw [if_neg ha] at h
      exact ih h

theorem alookup_isSome_iff_mem {β : Type} (q : List Char) :
    ∀ (l : List (List Char × β)),
      (alookup q l).isSome = true ↔ q ∈ l.map Prod.fst := by
  intro l
  induction l with
  | nil =>
    constructor
    · intro h
      exact Bool.noConfusion h
    · intro h
      simp at h
  | cons a t ih =>
    rw [alookup_cons, List.map_cons]
    by_cases ha : a.1 = q
    · rw [if_pos ha]
      exact ⟨fun _ => List.mem_cons.mpr (Or.inl ha.symm), fun _ => rfl⟩
    · rw [if_neg ha]
      rw [List.mem_cons, ih]
      constructor
      · exact Or.inr
      · rintro (h | h)
        · exact absurd h.symm ha
        · exact h

theorem node_add_preserves (missing : List (List Char)) :
    ∀ (deps : List (List Char × List Char)) (q : List Char) (v : List Char),
      alookup q deps = some v →
      alookup q (node_add_missing deps missing) = some v := by
  induction missing with
  | nil => intro deps q v h; exact h
  | cons m rest ih =>
    intro deps q v h
    show alookup q (node_add_missing (if (alookup m deps).isSome then deps
      else deps ++ [(m, "*".toList)]) rest) = some v
    by_cases hm : (alookup m deps).isSome = true
    · rw [if_pos hm]
      exact ih deps q v h
    · rw [if_neg hm]
      exact ih _ q v (alookup_append_of_some q v _ _ h)

theorem node_add_preserves_isSome (missing : List (List Char))
    (deps : List (List Char × List Char)) (q : List Char)
    (h : (alookup q deps).isSome = true) :
    (alookup q (node_add_missing deps missing)).isSome = true := by
  rcases Option.isSome_iff_exists.mp h with ⟨v, hv⟩
  rw [node_add_preserves missing deps q v hv]
  rfl

theorem node_add_covers (missing : List (List Char)) :
    ∀ (deps : List (List Char × List Char)) (m : List Char),
      m ∈ missing →
      (alookup m (node_add_missing deps missing)).isSome = true := by
  induction missing with
  | nil => intro deps m h; cases h
  | cons m0 rest ih =>
    intro deps m h
    show (alookup m (node_add_missing (if (alookup m0 deps).isSome then deps
      else deps ++ [(m0, "*".toList)]) rest)).isSome = true
    rcases List.mem_cons.mp h with rfl | hrest
    · by_cases hm : (alookup m deps).isSome = true
      · rw [if_pos hm]
        exact node_add_preserves_isSome rest deps m hm
      · rw [if_neg hm]
        refine node_add_preserves_isSome rest _ m ?_
        have hnone : alookup m deps = none := by
          cases hd : alookup m deps with
          | none => rfl
          | some v => rw [hd] at hm; exact absurd rfl hm
        rw [alookup_append_of_none m deps _ hnone, alookup_cons,
          if_pos rfl]
        rfl
    · by_cases hm : (alookup m0 deps).isSome = true
      · rw [if_pos hm]
        exact ih deps m hrest
      · rw [if_neg hm]
        exact ih _ m hrest

theorem node_add_of_all_covered (missing : List (List Char)) :
    ∀ (deps : List (List Char × List Char)),
      (∀ m ∈ missing, (alookup m deps).isSome = true) →
      node_add_missing deps missing = deps := by
  induction missing with
  | nil => intro deps _; rfl
  | cons m0 rest ih =>
    intro deps h
    show node_add_missing (if (alookup m0 deps).isSome then deps
      else deps ++ [(m0, "*".toList)]) rest = deps
    rw [if_pos (h m0 (List.mem_cons_self _ _))]
    exact ih deps (fun m hm => h m (List.mem_cons_of_mem _ hm))

theorem node_add_suffix (missing : List (List Char)) :
    ∀ (deps : List (List Char × List Char)),
      ∃ t, node_add_missing deps missing = deps ++ t := by
  induction missing with
  | nil =>
    intro deps
    refine ⟨[], ?_⟩
    rw [List.append_nil]
    rfl
  | cons m0 rest ih =>
    intro deps
    show ∃ t, node_add_missing (if (alookup m0 deps).isSome then deps
      else deps ++ [(m0, "*".toList)]) rest = deps ++ t
    by_cases hm : (alookup m0 deps).isSome = true
    · rw [if_pos hm]
      exact ih deps
    · rw [if_neg hm]
      rcases ih (deps ++ [(m0, "*".toList)]) with ⟨t, ht⟩
      exact ⟨[(m0, "*".toList)] ++ t, by rw [ht, List.append_assoc]⟩

theorem node_add_nodup (missing : List (List Char)) :
    ∀ (deps : List (List Char × List Char)),
      (deps.map Prod.fst).Nodup →
      ((node_add_missing deps missing).map Prod.fst).Nodup := by
  induction missing with
  | nil => intro deps h; exact h
  | cons m0 rest ih =>
    intro deps h
    show ((node_add_missing (if (alookup m0 deps).isSome then deps
      else deps ++ [(m0, "*".toList)]) rest).map Prod.fst).Nodup
    by_cases hm : (alookup m0 deps).isSome = true
    · rw [if_pos hm]
      exact ih deps h
    · rw [if_neg hm]
      refine ih _ ?_
      have hnm : m0 ∉ deps.map Prod.fst := by
        intro hmem
        exact hm ((alookup_isSome_iff_mem m0 deps).mpr hmem)
      have hmap : (deps ++ [(m0, "*".toList)]).map Prod.fst =
          deps.map Prod.fst ++ [m0] := by simp
      rw [hmap]
      exact List.Perm.nodup
        (List.perm_append_singleton m0 (deps.map Prod.fst)).symm
        (List.nodup_cons.mpr ⟨hnm, h⟩)

theorem pyCovered_append (rs t : List (List Char)) (m : List Char)
    (h : pyCovered rs m = true) : pyCovered (rs ++ t) m = true := by
  unfold pyCovered at h ⊢
  rw [List.any_append, h]
  rfl

theorem pyCovered_self (rs : List (List Char)) (m : List Char) :
    pyCovered (rs ++ [m]) m = true := by
  unfold pyCovered
  rw [List.any_append]
  have : [m].any (fun line =>
      (m ++ "==".toList).isPrefixOf line || line == m) = true := by
    simp [List.any_cons]
  rw [this, Bool.or_true]

theorem pyFold_suffix (L : List (List Char)) :
    ∀ (reqs : List (List Char)),
      ∃ t, L.foldl (fun rs m => if pyCovered rs m then rs else rs ++ [m])
        reqs = reqs ++ t := by
  induction L with
  | nil => intro reqs; exact ⟨[], by simp⟩
  | cons m0 rest ih =>
    intro reqs
    show ∃ t, rest.foldl _ (if pyCovered reqs m0 then reqs
      else reqs ++ [m0]) = reqs ++ t
    by_cases hm : pyCovered reqs m0 = true
    · rw [if_pos hm]
      exact ih reqs
    · rw [if_neg hm]
      rcases ih (reqs ++ [m0]) with ⟨t, ht⟩
      exact ⟨[m0] ++ t, by rw [ht, List.append_assoc]⟩

theorem pyFold_covered_mono (L : List (List Char))
    (reqs : List (List Char)) (m : List Char)
    (h : pyCovered reqs m = true) :
    pyCovered (L.foldl (fun rs x => if pyCovered rs x then rs
      else rs ++ [x]) reqs) m = true := by
  rcases pyFold_suffix L reqs with ⟨t, ht⟩
  rw [ht]
  exact pyCovered_append reqs t m h

theorem pyFold_covers (L : List (List Char)) :
    ∀ (reqs : List (List Char)) (m : List Char), m ∈ L →
      pyCovered (L.foldl (fun rs x => if pyCovered rs x then rs
        else rs ++ [x]) reqs) m = true := by
  induction L with
  | nil => intro reqs m h; cases h
  | cons m0 rest ih =>
    intro reqs m h
    show pyCovered (rest.foldl _ (if pyCovered reqs m0 then reqs
      else reqs ++ [m0])) m = true
    rcases List.mem_cons.mp h with rfl | hrest
    · by_cases hm : pyCovered reqs m = true
      · rw [if_pos hm]
        exact pyFold_covered_mono rest reqs m hm
      · rw [if_neg hm]
        exact pyFold_covered_mono rest _ m (pyCovered_self reqs m)
    · by_cases hm : pyCovered reqs m0 = true
      · rw [if_pos hm]
        exact ih reqs m hrest
      · rw [if_neg hm]
        exact ih _ m hrest

theorem pyFold_of_all_covered (L : List (List Char)) :
    ∀ (reqs : List (List Char)),
      (∀ m ∈ L, pyCovered reqs m = true) →
      L.foldl (fun rs m => if pyCovered rs m then rs else rs ++ [m])
        reqs = reqs := by
  induction L with
  | nil => intro reqs _; rfl
  | cons m0 rest ih =>
    intro reqs h
    show rest.foldl _ (if pyCovered reqs m0 then reqs
      else reqs ++ [m0]) = reqs
    rw [if_pos (h m0 (List.mem_cons_self _ _))]
    exact ih reqs (fun m hm => h m (List.mem_cons_of_mem _ hm))

/-- Claim C9: the dependency-manifest updates are monotonic and
non-duplicating.  Node: resolving a missing-module list twice equals
resolving it once, key-uniqueness of the dependency map is preserved,
existing entries keep their values, and the map only grows by a suffix.
Python: resolving twice equals resolving once, the requirements list only
grows by a suffix, and a module already pinned or listed is never
re-appended. -/
theorem c9_manifest_monotone (deps : List (List Char × List Char))
    (reqs : List (List Char)) (missing : List (List Char)) (m0 : List Char)
    (hnd : (deps.map Prod.fst).Nodup) :
    node_add_missing (node_add_missing deps missing) missing =
      node_add_missing deps missing ∧
    ((node_add_missing deps missing).map Prod.fst).Nodup ∧
    (∀ q v, alookup q deps = some v →
      alookup q (node_add_missing deps missing) = some v) ∧
    (∃ t, node_add_missing deps missing = deps ++ t) ∧
    python_add_reqs (python_add_reqs reqs missing) missing =
      python_add_reqs reqs missing ∧
    (∃ t2, python_add_reqs reqs missing = reqs ++ t2) ∧
    (pyCovered reqs (topLevel m0) = true →
      python_add_reqs reqs [m0] = reqs) := by
  refine ⟨?_, node_add_nodup missing deps hnd,
    node_add_preserves missing deps, node_add_suffix missing deps,
    ?_, pyFold_suffix _ reqs, ?_⟩
  · exact node_add_of_all_covered missing _
      (fun m hm => node_add_covers missing deps m hm)
  · exact pyFold_of_all_covered _ _
      (fun m hm => pyFold_covers _ reqs m hm)
  · intro h
    show List.foldl _ reqs (([m0].map topLevel).dedup) = reqs
    have hded : ([m0].map topLevel).dedup = [topLevel m0] := by
      simp [List.dedup]
    rw [hded]
    show (if pyCovered reqs (topLevel m0) then reqs
      else reqs ++ [topLevel m0]) = reqs
    rw [if_pos h]

/-- Witness for C9 at concrete manifests: an existing dependency keeps its
pinned value after resolving another module, and a pinned requirement is
not duplicated. -/
theorem c9_manifest_monotone_witness :
    alookup ("numpy".toList)
      (node_add_missing [(("numpy".toList), ("1.0".toList))]
        ["pandas".toList]) = some ("1.0".toList) ∧
    python_add_reqs ["yaml==6.0".toList] ["yaml.safe".toList] =
      ["yaml==6.0".toList] := by
  constructor
  · exact (c9_manifest_monotone [(("numpy".toList), ("1.0".toList))] []
      ["pandas".toList] [] (by decide)).2.2.1
      ("numpy".toList) ("1.0".toList) (by decide)
  · have h := (c9_manifest_monotone [] ["yaml==6.0".toList] []
      ("yaml.safe".toList) (by decide)).2.2.2.2.2.2 (by decide)
    exact h

/-- Claim C10: whenever the persisted record `ai_fixes.json` exists on
disk, the remediation's targeted step applies the suggestions read from
that file — `_apply_fixes` takes no suggestions from the current run's
classifier at all — and the pattern-fallback path always returns an empty
suggestion list, so a fallback-classified MINOR run still applies whatever
suggestions a previous run's remote analysis left in the record. -/
theorem c10_stale_record_applied (pt : String) (log : List Char)
    (files : List (List Char)) (fs : FS) (r : Record)
    (h : alookup ("ai_fixes.json".toList) fs =
      some (FileData.record r)) :
    apply_fixes pt log files fs =
      (scaffold_step pt
        (normalize_step pt log (applyFixList fs r.fixes).1 files).1,
       (applyFixList fs r.fixes).2 +
        (normalize_step pt log (applyFixList fs r.fixes).1 files).2) ∧
    (∀ pt2 log2, (analyze_traditional_result pt2 log2).2 = []) := by
  have hts : targeted_step fs = applyFixList fs r.fixes := by
    unfold targeted_step
    rw [h]
  constructor
  · show (scaffold_step pt
      (normalize_step pt log (targeted_step fs).1 files).1,
      (targeted_step fs).2 +
        (normalize_step pt log (targeted_step fs).1 files).2) = _
    rw [hts]
  · intro pt2 log2
    rfl

/-- A stale decision record and a filesystem for the C10 witness: the
record suggests replacing line 1 of `app.py`. -/
def staleDemoFix : FixS := ⟨"app.py".toList, 1, "fixed = True".toList⟩

/-- The witness filesystem: the stale record plus the target file. -/
def staleDemoFS : FS :=
  [("ai_fixes.json".toList,
      FileData.record ⟨"minor", [], [staleDemoFix]⟩),
   ("app.py".toList, FileData.text ("broken\nok\n".toList))]

/-- Witness for C10 at the concrete stale record: the run's remediation
decomposes through the on-disk suggestions, and in particular rewrites
`app.py` according to the previous run's record. -/
theorem c10_stale_record_applied_witness :
    apply_fixes "go" [] [] staleDemoFS =
      (scaffold_step "go"
        (normalize_step "go" [] (applyFixList staleDemoFS [staleDemoFix]).1
          []).1,
       (applyFixList staleDemoFS [staleDemoFix]).2 +
        (normalize_step "go" [] (applyFixList staleDemoFS [staleDemoFix]).1
          []).2) ∧
    alookup ("app.py".toList) (apply_fixes "go" [] [] staleDemoFS).1 =
      some (FileData.text ("fixed = True\nok\n".toList)) :=
  ⟨(c10_stale_record_applied "go" [] [] staleDemoFS
      ⟨"minor", [], [staleDemoFix]⟩ (by decide)).1,
   by decide⟩

end BuildErrorHandler
